import Mathlib

/-!
Verification of the stock-market-structure notebook
(`src/_posts/scikit/stock-market-structure/Visualizing-the-stock-market.ipynb`).

The notebook is a linear script.  Its in-repository logic (the parts not
delegated to external statistical libraries) is shallowly embedded here:

* the label-placement heuristic of the final plotting cell
  (`dx`, `dy`, sentinel assignment, `np.argmin`, alignment branches,
  coordinate nudges, the appended `annot` record);
* the color-scale helper `matplotlib_to_plotly`;
* the standardization step `X /= X.std(axis=0)`;
* the edge extraction (`partial_correlations` normalization, `non_zero`
  threshold mask, `np.where`, `values`, the `width = 15*values[i]` lines);
* the node scatter trace (positions, label list, `color=np.random.randn(500)`).

Real-valued NumPy data is modelled over `ℚ`.  The two library square roots
(`np.sqrt` in the edge normalization, the square root inside `np.std`) are
external numeric primitives: they enter either as an opaque function
parameter or through the characterizing hypothesis `s ^ 2 = variance`.
Randomness (`np.random.randn`) enters as an explicit input list.
Python runtime errors (ZeroDivisionError) are modelled by `Option` with
`none` for a raised exception.
-/

/-- First-occurrence argmin, the semantics of `np.argmin` on a 1-D array:
the index of the smallest element, ties resolved to the earliest index. -/
def npArgmin : List ℚ → ℕ
  | [] => 0
  | a :: t =>
      match t with
      | [] => 0
      | _ :: _ =>
        let r := npArgmin t
        if t.getD r 0 < a then r + 1 else 0

theorem npArgmin_singleton (a : ℚ) : npArgmin [a] = 0 := rfl

theorem npArgmin_cons_cons (a b : ℚ) (t : List ℚ) :
    npArgmin (a :: b :: t) =
      if (b :: t).getD (npArgmin (b :: t)) 0 < a then npArgmin (b :: t) + 1 else 0 := rfl

theorem npArgmin_lt_length (l : List ℚ) (h : l ≠ []) : npArgmin l < l.length := by
  induction l with
  | nil => exact absurd rfl h
  | cons a t ih =>
    cases t with
    | nil => simp [npArgmin_singleton]
    | cons b t' =>
      rw [npArgmin_cons_cons]
      split
      · have := ih (by simp)
        simp only [List.length_cons] at this ⊢
        omega
      · simp

theorem npArgmin_le (l : List ℚ) : ∀ j, j < l.length → l.getD (npArgmin l) 0 ≤ l.getD j 0 := by
  induction l with
  | nil => intro j hj; simp at hj
  | cons a t ih =>
    cases t with
    | nil =>
      intro j hj
      have : j = 0 := by simpa using hj
      subst this
      simp [npArgmin_singleton]
    | cons b t' =>
      intro j hj
      rw [npArgmin_cons_cons]
      split
      · rename_i hlt
        cases j with
        | zero => simpa using le_of_lt hlt
        | succ j' =>
          simp only [List.getD_cons_succ]
          exact ih j' (by simpa [Nat.succ_lt_succ_iff] using hj)
      · rename_i hge
        cases j with
        | zero => simp
        | succ j' =>
          simp only [List.getD_cons_zero, List.getD_cons_succ]
          exact le_trans (not_lt.mp hge) (ih j' (by simpa [Nat.succ_lt_succ_iff] using hj))

/-! ## Label-placement heuristic

Embedding of the annotations loop body:

```
dx = x - embedding[0]
dx[index] = 1
dy = y - embedding[1]
dy[index] = 1
this_dx = dx[np.argmin(np.abs(dy))]
this_dy = dy[np.argmin(np.abs(dx))]
...
```

`coords` is `embedding.T`, the list of `(x, y)` pairs, one per instrument.
-/

/-- The x-coordinate `embedding[0][idx]` of point `idx`. -/
def xCoord (coords : List (ℚ × ℚ)) (idx : ℕ) : ℚ := (coords.getD idx (0, 0)).1

/-- The y-coordinate `embedding[1][idx]` of point `idx`. -/
def yCoord (coords : List (ℚ × ℚ)) (idx : ℕ) : ℚ := (coords.getD idx (0, 0)).2

/-- `dx = x - embedding[0]; dx[index] = 1` of the annotations loop:
horizontal displacements from the target, with the self entry overwritten
by the sentinel value 1. -/
def dxList (coords : List (ℚ × ℚ)) (idx : ℕ) : List ℚ :=
  (List.range coords.length).map fun j =>
    if j = idx then 1 else xCoord coords idx - xCoord coords j

/-- `dy = y - embedding[1]; dy[index] = 1` of the annotations loop. -/
def dyList (coords : List (ℚ × ℚ)) (idx : ℕ) : List ℚ :=
  (List.range coords.length).map fun j =>
    if j = idx then 1 else yCoord coords idx - yCoord coords j

/-- The index `np.argmin(np.abs(dy))` selected for `this_dx`. -/
def hSel (coords : List (ℚ × ℚ)) (idx : ℕ) : ℕ :=
  npArgmin ((dyList coords idx).map fun a => |a|)

/-- The index `np.argmin(np.abs(dx))` selected for `this_dy`. -/
def vSel (coords : List (ℚ × ℚ)) (idx : ℕ) : ℕ :=
  npArgmin ((dxList coords idx).map fun a => |a|)

/-- `this_dx = dx[np.argmin(np.abs(dy))]`. -/
def hThisDx (coords : List (ℚ × ℚ)) (idx : ℕ) : ℚ :=
  (dxList coords idx).getD (hSel coords idx) 0

/-- `this_dy = dy[np.argmin(np.abs(dx))]`. -/
def vThisDy (coords : List (ℚ × ℚ)) (idx : ℕ) : ℚ :=
  (dyList coords idx).getD (vSel coords idx) 0

/-- A Python value as bound to the alignment variables: either a string or
(as on the `verticalalignment = 'top',` line, which builds a one-element
tuple) a tuple of strings. -/
inductive PyVal where
  | str (s : String)
  | tup (l : List String)
deriving DecidableEq, Repr

/-- The `horizontalalignment` variable after the first `if` of the loop body. -/
def hAlign (coords : List (ℚ × ℚ)) (idx : ℕ) : PyVal :=
  if 0 < hThisDx coords idx then PyVal.str "left" else PyVal.str "right"

/-- The mutated `x` after the first `if` of the loop body
(`x = x + .002` or `x = x - .002`). -/
def nudgedX (coords : List (ℚ × ℚ)) (idx : ℕ) : ℚ :=
  if 0 < hThisDx coords idx then xCoord coords idx + 1/500 else xCoord coords idx - 1/500

/-- The `verticalalignment` variable after the second `if` of the loop body.
On the else branch the source line is `verticalalignment = 'top',` whose
trailing comma makes the bound value the tuple `('top',)`. -/
def vAlign (coords : List (ℚ × ℚ)) (idx : ℕ) : PyVal :=
  if 0 < vThisDy coords idx then PyVal.str "bottom" else PyVal.tup ["top"]

/-- The mutated `y` after the second `if` of the loop body. -/
def nudgedY (coords : List (ℚ × ℚ)) (idx : ℕ) : ℚ :=
  if 0 < vThisDy coords idx then yCoord coords idx + 1/500 else yCoord coords idx - 1/500

/-- The record `annot = dict(x=x, y=y, text=name, showarrow=False)` appended
to the annotations list: it carries exactly the two nudged coordinates, the
display name, and `showarrow`. -/
structure Annot where
  x : ℚ
  y : ℚ
  text : String
  showarrow : Bool
deriving DecidableEq, Repr

/-- The loop body's appended record, built from the mutated coordinates. -/
def mkAnnot (coords : List (ℚ × ℚ)) (idx : ℕ) (name : String) : Annot :=
  { x := nudgedX coords idx, y := nudgedY coords idx, text := name, showarrow := false }

theorem length_dxList (coords : List (ℚ × ℚ)) (idx : ℕ) :
    (dxList coords idx).length = coords.length := by simp [dxList]

theorem length_dyList (coords : List (ℚ × ℚ)) (idx : ℕ) :
    (dyList coords idx).length = coords.length := by simp [dyList]

theorem dxList_getD (coords : List (ℚ × ℚ)) (idx j : ℕ) (hj : j < coords.length) :
    (dxList coords idx).getD j 0 =
      if j = idx then 1 else xCoord coords idx - xCoord coords j := by
  rw [List.getD_eq_getElem _ _ (by simpa [length_dxList] using hj)]
  simp [dxList]

theorem dyList_getD (coords : List (ℚ × ℚ)) (idx j : ℕ) (hj : j < coords.length) :
    (dyList coords idx).getD j 0 =
      if j = idx then 1 else yCoord coords idx - yCoord coords j := by
  rw [List.getD_eq_getElem _ _ (by simpa [length_dyList] using hj)]
  simp [dyList]

theorem map_abs_getD (l : List ℚ) (j : ℕ) (hj : j < l.length) :
    (l.map fun a => |a|).getD j 0 = |l.getD j 0| := by
  rw [List.getD_eq_getElem _ _ (by simpa using hj), List.getD_eq_getElem _ _ hj]
  simp

theorem argmin_abs_lt_length (l : List ℚ) (h : l ≠ []) :
    npArgmin (l.map fun a => |a|) < l.length := by
  have := npArgmin_lt_length (l.map fun a => |a|) (by simpa using h)
  simpa using this

theorem argmin_abs_le (l : List ℚ) (h : l ≠ []) (k : ℕ) (hk : k < l.length) :
    |l.getD (npArgmin (l.map fun a => |a|)) 0| ≤ |l.getD k 0| := by
  have h1 := npArgmin_le (l.map fun a => |a|) k (by simpa using hk)
  rw [map_abs_getD _ _ (argmin_abs_lt_length l h), map_abs_getD _ _ hk] at h1
  exact h1

theorem argmin_abs_ne (l : List ℚ) (idx : ℕ) (hidx : l.getD idx 0 = 1)
    (hex : ∃ j, j < l.length ∧ j ≠ idx ∧ |l.getD j 0| < 1) :
    npArgmin (l.map fun a => |a|) ≠ idx := by
  obtain ⟨j, hjlen, _, hjlt⟩ := hex
  have hne : l ≠ [] := by
    intro hl
    rw [hl] at hjlen
    simp at hjlen
  intro heq
  have h1 := argmin_abs_le l hne j hjlen
  rw [heq, hidx] at h1
  simp only [abs_one] at h1
  exact absurd (lt_of_le_of_lt h1 hjlt) (lt_irrefl 1)

/-- Selection facts for `this_dx`: when the target index is in range and
some other point lies at absolute vertical displacement below the sentinel
value 1, the index `np.argmin(np.abs(dy))` is a genuine other point of
minimal absolute vertical displacement, and `this_dx` is the target's true
horizontal displacement from it. -/
theorem hSel_props (coords : List (ℚ × ℚ)) (idx : ℕ) (hidx : idx < coords.length)
    (hex : ∃ j, j < coords.length ∧ j ≠ idx ∧ |yCoord coords idx - yCoord coords j| < 1) :
    hSel coords idx ≠ idx ∧ hSel coords idx < coords.length ∧
      (∀ k, k < coords.length → k ≠ idx →
        |yCoord coords idx - yCoord coords (hSel coords idx)|
          ≤ |yCoord coords idx - yCoord coords k|) ∧
      hThisDx coords idx = xCoord coords idx - xCoord coords (hSel coords idx) := by
  obtain ⟨j, hjlen, hjne, hjlt⟩ := hex
  have hcne : coords ≠ [] := by
    intro hl
    rw [hl] at hjlen
    simp at hjlen
  have hLne : dyList coords idx ≠ [] := by
    intro hl
    have := length_dyList coords idx
    rw [hl] at this
    simp at this
    omega
  have hLidx : (dyList coords idx).getD idx 0 = 1 := by
    rw [dyList_getD coords idx idx hidx, if_pos rfl]
  have hsne : hSel coords idx ≠ idx := by
    refine argmin_abs_ne (dyList coords idx) idx hLidx ⟨j, ?_, hjne, ?_⟩
    · rw [length_dyList]; exact hjlen
    · rw [dyList_getD coords idx j hjlen, if_neg hjne]; exact hjlt
  have hslt : hSel coords idx < coords.length := by
    have := argmin_abs_lt_length (dyList coords idx) hLne
    rw [length_dyList] at this
    exact this
  refine ⟨hsne, hslt, ?_, ?_⟩
  · intro k hk hkne
    have h1 := argmin_abs_le (dyList coords idx) hLne k (by rw [length_dyList]; exact hk)
    have hdef : npArgmin ((dyList coords idx).map fun a => |a|) = hSel coords idx := rfl
    rw [hdef, dyList_getD coords idx (hSel coords idx) hslt, if_neg hsne,
      dyList_getD coords idx k hk, if_neg hkne] at h1
    exact h1
  · unfold hThisDx
    rw [dxList_getD coords idx _ hslt, if_neg hsne]

/-- Selection facts for `this_dy`, symmetric to `hSel_props`. -/
theorem vSel_props (coords : List (ℚ × ℚ)) (idx : ℕ) (hidx : idx < coords.length)
    (hex : ∃ j, j < coords.length ∧ j ≠ idx ∧ |xCoord coords idx - xCoord coords j| < 1) :
    vSel coords idx ≠ idx ∧ vSel coords idx < coords.length ∧
      (∀ k, k < coords.length → k ≠ idx →
        |xCoord coords idx - xCoord coords (vSel coords idx)|
          ≤ |xCoord coords idx - xCoord coords k|) ∧
      vThisDy coords idx = yCoord coords idx - yCoord coords (vSel coords idx) := by
  obtain ⟨j, hjlen, hjne, hjlt⟩ := hex
  have hLne : dxList coords idx ≠ [] := by
    intro hl
    have := length_dxList coords idx
    rw [hl] at this
    simp at this
    omega
  have hLidx : (dxList coords idx).getD idx 0 = 1 := by
    rw [dxList_getD coords idx idx hidx, if_pos rfl]
  have hsne : vSel coords idx ≠ idx := by
    refine argmin_abs_ne (dxList coords idx) idx hLidx ⟨j, ?_, hjne, ?_⟩
    · rw [length_dxList]; exact hjlen
    · rw [dxList_getD coords idx j hjlen, if_neg hjne]; exact hjlt
  have hslt : vSel coords idx < coords.length := by
    have := argmin_abs_lt_length (dxList coords idx) hLne
    rw [length_dxList] at this
    exact this
  refine ⟨hsne, hslt, ?_, ?_⟩
  · intro k hk hkne
    have h1 := argmin_abs_le (dxList coords idx) hLne k (by rw [length_dxList]; exact hk)
    have hdef : npArgmin ((dxList coords idx).map fun a => |a|) = vSel coords idx := rfl
    rw [hdef, dxList_getD coords idx (vSel coords idx) hslt, if_neg hsne,
      dxList_getD coords idx k hk, if_neg hkne] at h1
    exact h1
  · unfold vThisDy
    rw [dyList_getD coords idx _ hslt, if_neg hsne]

/-! ## Color-scale conversion helper

Embedding of

```
def matplotlib_to_plotly(cmap, pl_entries):
    h = 1.0/(pl_entries-1)
    pl_colorscale = []
    for k in range(pl_entries):
        C = map(np.uint8, np.array(cmap(k*h)[:3])*255)
        pl_colorscale.append([k*h, 'rgb'+str((C[0], C[1], C[2]))])
    return pl_colorscale
```

The palette `cmap` (an external matplotlib colormap such as
`plt.cm.spectral`) is an opaque function from a sample position to an RGB
triple (the `[:3]` slice of its RGBA output).  The Python `ZeroDivisionError`
raised by `1.0/(pl_entries-1)` when the denominator is zero is modelled as
`none`; note `pl_entries - 1` is computed in `ℚ`, so for `pl_entries = 0`
the denominator is `-1`, not zero, exactly as in Python. -/

/-- Truncation toward zero, the rounding `np.uint8` applies to a float
before wrapping modulo 256. -/
def ratTrunc (q : ℚ) : ℤ := if 0 ≤ q then ⌊q⌋ else -⌊-q⌋

/-- `np.uint8`: truncate toward zero, wrap into `[0, 256)`. -/
def npUint8 (q : ℚ) : ℕ := (ratTrunc q % 256).toNat

/-- The helper `matplotlib_to_plotly`.  Output entries are
`(position, color)` pairs; the color is the byte triple interpolated into
the string `'rgb' + str((C[0], C[1], C[2]))`. -/
def matplotlib_to_plotly (cmap : ℚ → ℚ × ℚ × ℚ) (pl_entries : ℕ) :
    Option (List (ℚ × ℕ × ℕ × ℕ)) :=
  if ((pl_entries : ℚ) - 1) = 0 then none
  else
    let h : ℚ := 1 / ((pl_entries : ℚ) - 1)
    some ((List.range pl_entries).map fun k : ℕ =>
      ((k : ℚ) * h,
        npUint8 ((cmap ((k : ℚ) * h)).1 * 255),
        npUint8 ((cmap ((k : ℚ) * h)).2.1 * 255),
        npUint8 ((cmap ((k : ℚ) * h)).2.2 * 255)))

/-- A sample palette standing in for the external colormap: a grayscale
ramp.  Used only to instantiate theorems at concrete inputs. -/
def cmapGray (t : ℚ) : ℚ × ℚ × ℚ := (t, t, t)

/-! ## Standardization step

Embedding of `X = variation.copy().T; X /= X.std(axis=0)`.  `X`'s columns
are the per-instrument series; `np.std` with the default `ddof=0` is the
square root of the mean squared deviation.  The square root itself is an
external numeric primitive; a standard-deviation value `s` enters the
theorems through its characterizing property `s ^ 2 = npVariance col`. -/

/-- The mean of a series, `np.mean`. -/
def npMean (l : List ℚ) : ℚ := l.sum / (l.length : ℚ)

/-- The mean squared deviation of a series: the square of `np.std(ddof=0)`. -/
def npVariance (l : List ℚ) : ℚ :=
  ((l.map fun x => (x - npMean l) ^ 2).sum) / (l.length : ℚ)

/-- One column of `X /= X.std(axis=0)`: every value divided by the column's
standard deviation `s`. -/
def standardizeCol (l : List ℚ) (s : ℚ) : List ℚ := l.map fun x => x / s

/-- The whole standardization step: `cols` are the columns of `X`, `stds`
the per-column values of `X.std(axis=0)`. -/
def standardizeMatrix (cols : List (List ℚ)) (stds : List ℚ) : List (List ℚ) :=
  List.zipWith standardizeCol cols stds

/-! ## Edge extraction

Embedding of

```
partial_correlations = edge_model.precision_.copy()
d = 1 / np.sqrt(np.diag(partial_correlations))
partial_correlations *= d
partial_correlations *= d[:, np.newaxis]
non_zero = (np.abs(np.triu(partial_correlations, k=1)) > 0.02)
start_idx, end_idx = np.where(non_zero)
values = np.abs(partial_correlations[non_zero])
...
        width= 15*values[i]
```

`P` is the externally estimated precision matrix and `sqrtA` stands for the
external `np.sqrt`; `n` is the number of instruments. -/

/-- The normalized partial-correlation matrix after the two broadcast
multiplications by `d = 1 / np.sqrt(np.diag(...))`. -/
def normPC (sqrtA : ℚ → ℚ) (P : ℕ → ℕ → ℚ) (i j : ℕ) : ℚ :=
  P i j * (1 / sqrtA (P j j)) * (1 / sqrtA (P i i))

/-- The boolean mask `non_zero`: the strict upper triangle (`np.triu` with
`k=1` zeroes all entries with `i ≥ j`) thresholded at `0.02 = 1/50`. -/
def nonZero (sqrtA : ℚ → ℚ) (P : ℕ → ℕ → ℚ) (i j : ℕ) : Bool :=
  decide (1/50 < |if i < j then normPC sqrtA P i j else 0|)

/-- `start_idx, end_idx = np.where(non_zero)`: the index pairs of the true
mask entries, in row-major order. -/
def edgeList (sqrtA : ℚ → ℚ) (P : ℕ → ℕ → ℚ) (n : ℕ) : List (ℕ × ℕ) :=
  (List.range n).flatMap fun i =>
    ((List.range n).filter fun j => nonZero sqrtA P i j).map fun j => (i, j)

/-- `values = np.abs(partial_correlations[non_zero])`, in the same
row-major order as `np.where`. -/
def edgeValues (sqrtA : ℚ → ℚ) (P : ℕ → ℕ → ℚ) (n : ℕ) : List ℚ :=
  (edgeList sqrtA P n).map fun p => |normPC sqrtA P p.1 p.2|

/-- The per-edge line widths `15*values[i]`. -/
def edgeWidths (sqrtA : ℚ → ℚ) (P : ℕ → ℕ → ℚ) (n : ℕ) : List ℚ :=
  (edgeValues sqrtA P n).map fun v => 15 * v

/-! ## Node scatter trace

Embedding of

```
trace = go.Scatter(x= embedding[0], y=embedding[1], name=labels,
                   mode="markers", hoverinfo='none',
                   marker = dict(size=10,
                   color = np.random.randn(500),
                   colorscale= matplotlib_to_plotly(plt.cm.spectral,500),))
```

The cluster labels are passed as the trace *name*; the marker color is a
fresh array of 500 standard-normal draws, modelled as an explicit input
list `randn`. -/

structure NodeTrace where
  x : List ℚ
  y : List ℚ
  name : List ℕ
  size : ℕ
  color : List ℚ
deriving DecidableEq, Repr

/-- The node scatter trace as built by the source. -/
def mkNodeTrace (embedding : List (ℚ × ℚ)) (labels : List ℕ) (randn : List ℚ) :
    NodeTrace :=
  { x := embedding.map Prod.fst
    y := embedding.map Prod.snd
    name := labels
    size := 10
    color := randn }

theorem list_sum_map_div (l : List ℚ) (s : ℚ) :
    (l.map fun x => x / s).sum = l.sum / s := by
  induction l with
  | nil => simp
  | cons a t ih => simp [ih, add_div]

theorem npMean_standardize (l : List ℚ) (s : ℚ) :
    npMean (standardizeCol l s) = npMean l / s := by
  unfold npMean standardizeCol
  rw [List.length_map, list_sum_map_div, div_right_comm]

theorem npVariance_standardize (l : List ℚ) (s : ℚ) :
    npVariance (standardizeCol l s) = npVariance l / s ^ 2 := by
  unfold npVariance
  rw [npMean_standardize]
  unfold standardizeCol
  rw [List.length_map, List.map_map]
  have h1 : ((fun x => (x - npMean l / s) ^ 2) ∘ fun x => x / s)
      = fun x => (x - npMean l) ^ 2 / s ^ 2 := by
    funext x
    simp only [Function.comp_apply]
    rw [div_sub_div_same, div_pow]
  rw [h1]
  have h2 : (l.map fun x => (x - npMean l) ^ 2 / s ^ 2).sum
      = (l.map fun x => (x - npMean l) ^ 2).sum / s ^ 2 := by
    have h3 : (fun x => (x - npMean l) ^ 2 / s ^ 2)
        = (fun y => y / s ^ 2) ∘ fun x => (x - npMean l) ^ 2 := rfl
    rw [h3, ← List.map_map, list_sum_map_div]
  rw [h2, div_right_comm]

/-! ## Claim theorems -/

/-- Claim C1, counterexample: with the two distinct points (5,5) and (8,10)
and target index 0, every other point is at absolute vertical and horizontal
displacement at least the sentinel value 1, so both argmin selections pick
the target's own index 0 (where the sentinel sits): the self-displacement
sentinel does not exclude the target's own point. -/
theorem c1_self_selected_cex :
    ([((5 : ℚ), 5), (8, 10)] : List (ℚ × ℚ)).length = 2 ∧
    (((5 : ℚ), (5 : ℚ)) : ℚ × ℚ) ≠ ((8 : ℚ), (10 : ℚ)) ∧
    hSel [((5 : ℚ), 5), (8, 10)] 0 = 0 ∧
    vSel [((5 : ℚ), 5), (8, 10)] 0 = 0 := by
  refine ⟨by norm_num, by norm_num [Prod.mk.injEq], ?_, ?_⟩ <;>
    norm_num [hSel, vSel, dxList, dyList, xCoord, yCoord, List.range_succ, npArgmin]

/-- Claim C1 (amended): the nearest-neighbor selections never pick the
target's own point provided some other point lies at absolute vertical
(for the horizontal direction) resp. horizontal (for the vertical
direction) displacement strictly below the sentinel value 1; without that
proviso the sentinel itself can be the minimum and the target is selected. -/
theorem c1_self_excluded (coords : List (ℚ × ℚ)) (idx : ℕ) (hidx : idx < coords.length)
    (hy : ∃ j, j < coords.length ∧ j ≠ idx ∧ |yCoord coords idx - yCoord coords j| < 1)
    (hx : ∃ j, j < coords.length ∧ j ≠ idx ∧ |xCoord coords idx - xCoord coords j| < 1) :
    hSel coords idx ≠ idx ∧ vSel coords idx ≠ idx :=
  ⟨(hSel_props coords idx hidx hy).1, (vSel_props coords idx hidx hx).1⟩

theorem c1_self_excluded_witness :
    hSel [((5 : ℚ), 5), (8, 5), (5, 8)] 0 ≠ 0 ∧
    vSel [((5 : ℚ), 5), (8, 5), (5, 8)] 0 ≠ 0 :=
  c1_self_excluded [((5 : ℚ), 5), (8, 5), (5, 8)] 0 (by norm_num)
    ⟨1, by norm_num [yCoord]⟩ ⟨2, by norm_num [xCoord]⟩

/-- Claim C5, counterexample: with points (5,5) and (8,10) and target 0, the
only other point has horizontal displacement -3; yet `this_dx` is the
sentinel value 1, not the displacement of that (unique, hence minimal)
other point. -/
theorem c5_direction_cex :
    hThisDx [((5 : ℚ), 5), (8, 10)] 0 = 1 ∧
    xCoord [((5 : ℚ), 5), (8, 10)] 0 - xCoord [((5 : ℚ), 5), (8, 10)] 1 = -3 ∧
    ((1 : ℚ) ≠ -3) := by
  refine ⟨?_, by norm_num [xCoord], by norm_num⟩
  norm_num [hThisDx, hSel, dxList, dyList, xCoord, yCoord, List.range_succ, npArgmin]

/-- Claim C5 (amended): provided some other point lies at absolute vertical
(resp. horizontal) displacement strictly below the sentinel value 1,
`this_dx` is the horizontal displacement of a point other than the target
whose absolute vertical displacement is minimal among all other points,
and `this_dy` symmetrically; without that proviso the sentinel value itself
is returned (see the counterexample). -/
theorem c5_direction (coords : List (ℚ × ℚ)) (idx : ℕ) (hidx : idx < coords.length)
    (hy : ∃ j, j < coords.length ∧ j ≠ idx ∧ |yCoord coords idx - yCoord coords j| < 1)
    (hx : ∃ j, j < coords.length ∧ j ≠ idx ∧ |xCoord coords idx - xCoord coords j| < 1) :
    (∃ j, j < coords.length ∧ j ≠ idx ∧
      (∀ k, k < coords.length → k ≠ idx →
        |yCoord coords idx - yCoord coords j| ≤ |yCoord coords idx - yCoord coords k|) ∧
      hThisDx coords idx = xCoord coords idx - xCoord coords j) ∧
    (∃ j, j < coords.length ∧ j ≠ idx ∧
      (∀ k, k < coords.length → k ≠ idx →
        |xCoord coords idx - xCoord coords j| ≤ |xCoord coords idx - xCoord coords k|) ∧
      vThisDy coords idx = yCoord coords idx - yCoord coords j) := by
  obtain ⟨hne, hlt, hmin, heq⟩ := hSel_props coords idx hidx hy
  obtain ⟨hne', hlt', hmin', heq'⟩ := vSel_props coords idx hidx hx
  exact ⟨⟨hSel coords idx, hlt, hne, hmin, heq⟩,
    ⟨vSel coords idx, hlt', hne', hmin', heq'⟩⟩

theorem c5_direction_witness :
    (∃ j, j < ([((5 : ℚ), 5), (8, 5), (5, 8)] : List (ℚ × ℚ)).length ∧ j ≠ 0 ∧
      (∀ k, k < ([((5 : ℚ), 5), (8, 5), (5, 8)] : List (ℚ × ℚ)).length → k ≠ 0 →
        |yCoord [((5 : ℚ), 5), (8, 5), (5, 8)] 0 - yCoord [((5 : ℚ), 5), (8, 5), (5, 8)] j|
          ≤ |yCoord [((5 : ℚ), 5), (8, 5), (5, 8)] 0 - yCoord [((5 : ℚ), 5), (8, 5), (5, 8)] k|) ∧
      hThisDx [((5 : ℚ), 5), (8, 5), (5, 8)] 0 =
        xCoord [((5 : ℚ), 5), (8, 5), (5, 8)] 0 - xCoord [((5 : ℚ), 5), (8, 5), (5, 8)] j) ∧
    (∃ j, j < ([((5 : ℚ), 5), (8, 5), (5, 8)] : List (ℚ × ℚ)).length ∧ j ≠ 0 ∧
      (∀ k, k < ([((5 : ℚ), 5), (8, 5), (5, 8)] : List (ℚ × ℚ)).length → k ≠ 0 →
        |xCoord [((5 : ℚ), 5), (8, 5), (5, 8)] 0 - xCoord [((5 : ℚ), 5), (8, 5), (5, 8)] j|
          ≤ |xCoord [((5 : ℚ), 5), (8, 5), (5, 8)] 0 - xCoord [((5 : ℚ), 5), (8, 5), (5, 8)] k|) ∧
      vThisDy [((5 : ℚ), 5), (8, 5), (5, 8)] 0 =
        yCoord [((5 : ℚ), 5), (8, 5), (5, 8)] 0 - yCoord [((5 : ℚ), 5), (8, 5), (5, 8)] j) :=
  c5_direction [((5 : ℚ), 5), (8, 5), (5, 8)] 0 (by norm_num)
    ⟨1, by norm_num [yCoord]⟩ ⟨2, by norm_num [xCoord]⟩

/-- Claim C6, counterexample: at points (5,5), (8,5), (5,8) with target 0
the selected vertical displacement is -3, not positive, and on that branch
the vertical alignment variable is bound to the one-element tuple
`('top',)`, not to the string `'top'`: the label is not anchored top as the
claim states. -/
theorem c6_top_tuple_cex :
    ¬ 0 < vThisDy [((5 : ℚ), 5), (8, 5), (5, 8)] 0 ∧
    vAlign [((5 : ℚ), 5), (8, 5), (5, 8)] 0 ≠ PyVal.str "top" ∧
    vAlign [((5 : ℚ), 5), (8, 5), (5, 8)] 0 = PyVal.tup ["top"] := by
  have h : vThisDy [((5 : ℚ), 5), (8, 5), (5, 8)] 0 = -3 := by
    norm_num [vThisDy, vSel, dxList, dyList, xCoord, yCoord, List.range_succ, npArgmin]
  have h2 : vAlign [((5 : ℚ), 5), (8, 5), (5, 8)] 0 = PyVal.tup ["top"] := by
    norm_num [vAlign, h]
  exact ⟨by rw [h]; norm_num, by rw [h2]; simp, h2⟩

/-- Claim C6 (amended): a strictly positive selected horizontal displacement
anchors left and adds the constant 0.002 to x, otherwise right and
subtracts it; a strictly positive selected vertical displacement anchors
bottom and adds 0.002 to y, otherwise subtracts it — but on that last
branch the alignment variable is bound to the one-element tuple `('top',)`
rather than the string `'top'`. -/
theorem c6_alignment (coords : List (ℚ × ℚ)) (idx : ℕ) :
    (0 < hThisDx coords idx →
      hAlign coords idx = PyVal.str "left" ∧
      nudgedX coords idx = xCoord coords idx + 1/500) ∧
    (¬ 0 < hThisDx coords idx →
      hAlign coords idx = PyVal.str "right" ∧
      nudgedX coords idx = xCoord coords idx - 1/500) ∧
    (0 < vThisDy coords idx →
      vAlign coords idx = PyVal.str "bottom" ∧
      nudgedY coords idx = yCoord coords idx + 1/500) ∧
    (¬ 0 < vThisDy coords idx →
      vAlign coords idx = PyVal.tup ["top"] ∧
      nudgedY coords idx = yCoord coords idx - 1/500) := by
  unfold hAlign nudgedX vAlign nudgedY
  refine ⟨fun h => ?_, fun h => ?_, fun h => ?_, fun h => ?_⟩ <;> simp [h]

theorem c6_alignment_witness :
    hAlign [((5 : ℚ), 5), (8, 5), (5, 8)] 0 = PyVal.str "right" ∧
    nudgedX [((5 : ℚ), 5), (8, 5), (5, 8)] 0 =
      xCoord [((5 : ℚ), 5), (8, 5), (5, 8)] 0 - 1/500 ∧
    vAlign [((5 : ℚ), 5), (8, 5), (5, 8)] 0 = PyVal.tup ["top"] ∧
    nudgedY [((5 : ℚ), 5), (8, 5), (5, 8)] 0 =
      yCoord [((5 : ℚ), 5), (8, 5), (5, 8)] 0 - 1/500 := by
  have hdx : ¬ 0 < hThisDx [((5 : ℚ), 5), (8, 5), (5, 8)] 0 := by
    norm_num [hThisDx, hSel, dxList, dyList, xCoord, yCoord, List.range_succ, npArgmin]
  have hdy : ¬ 0 < vThisDy [((5 : ℚ), 5), (8, 5), (5, 8)] 0 := by
    norm_num [vThisDy, vSel, dxList, dyList, xCoord, yCoord, List.range_succ, npArgmin]
  have h := c6_alignment [((5 : ℚ), 5), (8, 5), (5, 8)] 0
  exact ⟨(h.2.1 hdx).1, (h.2.1 hdx).2, (h.2.2.2 hdy).1, (h.2.2.2 hdy).2⟩

/-- Claim C8: the alignment choices and the coordinate offsets are a pure
function of the input, and depend only on whether each selected
displacement is strictly positive: two runs whose selected displacements
agree in sign produce the same alignments and apply the same offsets. -/
theorem c8_sign_determines (c c' : List (ℚ × ℚ)) (i i' : ℕ)
    (hh : 0 < hThisDx c i ↔ 0 < hThisDx c' i')
    (hv : 0 < vThisDy c i ↔ 0 < vThisDy c' i') :
    hAlign c i = hAlign c' i' ∧ vAlign c i = vAlign c' i' ∧
    nudgedX c i - xCoord c i = nudgedX c' i' - xCoord c' i' ∧
    nudgedY c i - yCoord c i = nudgedY c' i' - yCoord c' i' := by
  unfold hAlign vAlign nudgedX nudgedY
  by_cases h1 : 0 < hThisDx c i <;> by_cases h2 : 0 < vThisDy c i
  · have h1' := hh.mp h1
    have h2' := hv.mp h2
    refine ⟨by simp [h1, h1'], by simp [h2, h2'], by simp [h1, h1'], by simp [h2, h2']⟩
  · have h1' := hh.mp h1
    have h2' := (not_iff_not.mpr hv).mp h2
    refine ⟨by simp [h1, h1'], by simp [h2, h2'], by simp [h1, h1'], by simp [h2, h2']⟩
  · have h1' := (not_iff_not.mpr hh).mp h1
    have h2' := hv.mp h2
    refine ⟨by simp [h1, h1'], by simp [h2, h2'], by simp [h1, h1'], by simp [h2, h2']⟩
  · have h1' := (not_iff_not.mpr hh).mp h1
    have h2' := (not_iff_not.mpr hv).mp h2
    refine ⟨by simp [h1, h1'], by simp [h2, h2'], by simp [h1, h1'], by simp [h2, h2']⟩

theorem c8_sign_determines_witness :
    hAlign [((5 : ℚ), 5), (8, 5), (5, 8)] 0 = hAlign [((15 : ℚ), 15), (18, 15), (15, 18)] 0 ∧
    vAlign [((5 : ℚ), 5), (8, 5), (5, 8)] 0 = vAlign [((15 : ℚ), 15), (18, 15), (15, 18)] 0 ∧
    nudgedX [((5 : ℚ), 5), (8, 5), (5, 8)] 0 - xCoord [((5 : ℚ), 5), (8, 5), (5, 8)] 0 =
      nudgedX [((15 : ℚ), 15), (18, 15), (15, 18)] 0 -
        xCoord [((15 : ℚ), 15), (18, 15), (15, 18)] 0 ∧
    nudgedY [((5 : ℚ), 5), (8, 5), (5, 8)] 0 - yCoord [((5 : ℚ), 5), (8, 5), (5, 8)] 0 =
      nudgedY [((15 : ℚ), 15), (18, 15), (15, 18)] 0 -
        yCoord [((15 : ℚ), 15), (18, 15), (15, 18)] 0 :=
  c8_sign_determines [((5 : ℚ), 5), (8, 5), (5, 8)] [((15 : ℚ), 15), (18, 15), (15, 18)] 0 0
    (by norm_num [hThisDx, hSel, dxList, dyList, xCoord, yCoord, List.range_succ, npArgmin])
    (by norm_num [vThisDy, vSel, dxList, dyList, xCoord, yCoord, List.range_succ, npArgmin])

/-- Claim C9: the appended record consists of exactly the nudged x, the
nudged y, the display name and `showarrow = False`; the alignment values
are computed but are no part of it, and on the non-positive vertical branch
the alignment variable holds the one-element tuple `('top',)`. -/
theorem c9_annot_record (coords : List (ℚ × ℚ)) (idx : ℕ) (text : String) :
    mkAnnot coords idx text =
      { x := nudgedX coords idx, y := nudgedY coords idx,
        text := text, showarrow := false } ∧
    (¬ 0 < vThisDy coords idx →
      vAlign coords idx = PyVal.tup ["top"] ∧ vAlign coords idx ≠ PyVal.str "top") :=
  ⟨rfl, fun h => by simp [vAlign, h]⟩

theorem c9_annot_record_witness :
    mkAnnot [((5 : ℚ), 5), (8, 5), (5, 8)] 0 "Total" =
      { x := nudgedX [((5 : ℚ), 5), (8, 5), (5, 8)] 0,
        y := nudgedY [((5 : ℚ), 5), (8, 5), (5, 8)] 0,
        text := "Total", showarrow := false } ∧
    vAlign [((5 : ℚ), 5), (8, 5), (5, 8)] 0 = PyVal.tup ["top"] ∧
    vAlign [((5 : ℚ), 5), (8, 5), (5, 8)] 0 ≠ PyVal.str "top" := by
  have hdy : ¬ 0 < vThisDy [((5 : ℚ), 5), (8, 5), (5, 8)] 0 := by
    norm_num [vThisDy, vSel, dxList, dyList, xCoord, yCoord, List.range_succ, npArgmin]
  have h := c9_annot_record [((5 : ℚ), 5), (8, 5), (5, 8)] 0 "Total"
  exact ⟨h.1, (h.2 hdy).1, (h.2 hdy).2⟩

/-- Claim C3, counterexample: with sampling count N = 0 (which is ≤ 1) the
helper does not raise: the step size is 1/(0-1) = -1, the loop body runs
zero times, and an empty color-stop list is returned as a value. -/
theorem c3_zero_entries_cex : matplotlib_to_plotly cmapGray 0 = some [] := by
  unfold matplotlib_to_plotly
  norm_num

/-- Claim C3 (amended): for N = 1 the step size divides by zero and the
helper raises (ZeroDivisionError); for N = 0 it instead returns the empty
color-stop list, so only N = 1 produces an error among N ≤ 1. -/
theorem c3_low_entries (cmap : ℚ → ℚ × ℚ × ℚ) :
    matplotlib_to_plotly cmap 1 = none ∧ matplotlib_to_plotly cmap 0 = some [] := by
  constructor <;> (unfold matplotlib_to_plotly; norm_num)

theorem c3_low_entries_witness :
    matplotlib_to_plotly cmapGray 1 = none ∧ matplotlib_to_plotly cmapGray 0 = some [] :=
  c3_low_entries cmapGray

/-- Claim C7: for every sampling count N > 1 the helper returns exactly N
(position, color) stops, the k-th at position k/(N-1); the positions are
strictly increasing and all lie in [0, 1].  In particular N = 2 yields the
two stops 0 and 1 (see the witness). -/
theorem c7_colorscale (cmap : ℚ → ℚ × ℚ × ℚ) (N : ℕ) (hN : 1 < N) :
    ∃ l, matplotlib_to_plotly cmap N = some l ∧
      l.length = N ∧
      l.map Prod.fst = (List.range N).map (fun k : ℕ => (k : ℚ) / ((N : ℚ) - 1)) ∧
      (l.map Prod.fst).Pairwise (· < ·) ∧
      (∀ p ∈ l.map Prod.fst, 0 ≤ p ∧ p ≤ 1) := by
  have hden : (0 : ℚ) < (N : ℚ) - 1 := by
    have h1 : (1 : ℚ) < (N : ℚ) := by exact_mod_cast hN
    linarith
  have hne : ((N : ℚ) - 1) ≠ 0 := ne_of_gt hden
  have hmtp : matplotlib_to_plotly cmap N =
      some ((List.range N).map fun k : ℕ =>
        ((k : ℚ) * (1 / ((N : ℚ) - 1)),
          npUint8 ((cmap ((k : ℚ) * (1 / ((N : ℚ) - 1)))).1 * 255),
          npUint8 ((cmap ((k : ℚ) * (1 / ((N : ℚ) - 1)))).2.1 * 255),
          npUint8 ((cmap ((k : ℚ) * (1 / ((N : ℚ) - 1)))).2.2 * 255))) := by
    unfold matplotlib_to_plotly
    rw [if_neg hne]
  have hpos : ((List.range N).map fun k : ℕ =>
      ((k : ℚ) * (1 / ((N : ℚ) - 1)),
        npUint8 ((cmap ((k : ℚ) * (1 / ((N : ℚ) - 1)))).1 * 255),
        npUint8 ((cmap ((k : ℚ) * (1 / ((N : ℚ) - 1)))).2.1 * 255),
        npUint8 ((cmap ((k : ℚ) * (1 / ((N : ℚ) - 1)))).2.2 * 255))).map Prod.fst
      = (List.range N).map (fun k : ℕ => (k : ℚ) / ((N : ℚ) - 1)) := by
    rw [List.map_map]
    refine List.map_congr_left fun k _ => ?_
    simp only [Function.comp_apply]
    rw [mul_one_div]
  refine ⟨_, hmtp, by simp, hpos, ?_, ?_⟩
  · rw [hpos, List.pairwise_map]
    refine List.Pairwise.imp ?_ (List.pairwise_lt_range N)
    intro a b hab
    exact div_lt_div_of_pos_right (by exact_mod_cast hab) hden
  · rw [hpos]
    intro p hp
    obtain ⟨k, hk, rfl⟩ := List.mem_map.mp hp
    have hkN : k < N := List.mem_range.mp hk
    have hkle : (k : ℚ) ≤ (N : ℚ) - 1 := by
      have : ((k : ℚ) + 1) ≤ (N : ℚ) := by exact_mod_cast Nat.succ_le_of_lt hkN
      linarith
    constructor
    · positivity
    · rw [div_le_one hden]
      exact hkle

theorem c7_colorscale_witness :
    (1 < 2) ∧
    (∃ l, matplotlib_to_plotly cmapGray 2 = some l ∧
      l.length = 2 ∧
      l.map Prod.fst = (List.range 2).map (fun k : ℕ => (k : ℚ) / ((2 : ℚ) - 1)) ∧
      (l.map Prod.fst).Pairwise (· < ·) ∧
      (∀ p ∈ l.map Prod.fst, 0 ≤ p ∧ p ≤ 1)) ∧
    matplotlib_to_plotly cmapGray 2 = some [(0, 0, 0, 0), (1, 255, 255, 255)] := by
  refine ⟨by norm_num, c7_colorscale cmapGray 2 (by norm_num), ?_⟩
  unfold matplotlib_to_plotly
  norm_num [List.range_succ, cmapGray, npUint8, ratTrunc, Int.toNat_ofNat]
  decide

/-- Claim C4, counterexample: the constant column [1, 1] has zero variance
(zero standard deviation), yet the standardization step does not raise any
error: it still produces a value (one column of two entries).  In NumPy the
element-wise division by the zero standard deviation only emits a runtime
warning and yields non-finite values. -/
theorem c4_no_error_cex :
    npVariance [(1 : ℚ), 1] = 0 ∧
    (standardizeMatrix [[(1 : ℚ), 1]] [0]).length = 1 ∧
    ((standardizeMatrix [[(1 : ℚ), 1]] [0]).getD 0 []).length = 2 := by
  refine ⟨?_, by norm_num [standardizeMatrix], ?_⟩
  · norm_num [npVariance, npMean]
  · norm_num [standardizeMatrix, standardizeCol]

/-- Claim C4 (amended): when every column's standard deviation is nonzero
(equivalently its variance is nonzero), dividing each column by its own
standard deviation leaves every column with unit variance, i.e. unit scale;
a zero-variance column, however, does not raise an explicit error — the
division is performed anyway (NumPy silently yields Inf/NaN). -/
theorem c4_unit_scale (cols : List (List ℚ)) (stds : List ℚ)
    (hlen : stds.length = cols.length)
    (hstd : ∀ i, i < cols.length → (stds.getD i 0) ^ 2 = npVariance (cols.getD i []))
    (hnz : ∀ i, i < cols.length → npVariance (cols.getD i []) ≠ 0) :
    (standardizeMatrix cols stds).length = cols.length ∧
    ∀ i, i < cols.length →
      npVariance ((standardizeMatrix cols stds).getD i []) = 1 := by
  have hl : (standardizeMatrix cols stds).length = cols.length := by
    unfold standardizeMatrix
    rw [List.length_zipWith, hlen, min_self]
  refine ⟨hl, ?_⟩
  intro i hi
  have hget : (standardizeMatrix cols stds).getD i [] =
      standardizeCol (cols.getD i []) (stds.getD i 0) := by
    rw [List.getD_eq_getElem _ _ (by rw [hl]; exact hi)]
    unfold standardizeMatrix
    rw [List.getElem_zipWith]
    rw [← List.getD_eq_getElem cols [] hi,
      ← List.getD_eq_getElem stds 0 (by rw [hlen]; exact hi)]
  rw [hget, npVariance_standardize, hstd i hi, div_self (hnz i hi)]

theorem c4_unit_scale_witness :
    (standardizeMatrix [[(0 : ℚ), 2]] [1]).length = 1 ∧
    ∀ i, i < ([[(0 : ℚ), 2]] : List (List ℚ)).length →
      npVariance ((standardizeMatrix [[(0 : ℚ), 2]] [1]).getD i []) = 1 := by
  refine c4_unit_scale [[(0 : ℚ), 2]] [1] (by norm_num) ?_ ?_ <;>
    (intro i hi;
     simp only [List.length_cons, List.length_nil] at hi;
     have hi0 : i = 0 := by omega) <;>
    subst hi0 <;> norm_num [npVariance, npMean]

/-- Claim C2, code bug: in the node scatter trace the marker color is the
array of standard-normal draws passed in, not the cluster labels (which are
passed as the trace name); positions do come from the embedding.  The
notebook's own markdown states that cluster labels define the node colors. -/
theorem c2_node_color_random :
    (mkNodeTrace [((5 : ℚ), 5), (8, 10)] [3, 5] [9, 11]).color = [9, 11] ∧
    (mkNodeTrace [((5 : ℚ), 5), (8, 10)] [3, 5] [9, 11]).color ≠
      ((mkNodeTrace [((5 : ℚ), 5), (8, 10)] [3, 5] [9, 11]).name.map fun k : ℕ => (k : ℚ)) ∧
    (mkNodeTrace [((5 : ℚ), 5), (8, 10)] [3, 5] [9, 11]).x = [5, 8] ∧
    (mkNodeTrace [((5 : ℚ), 5), (8, 10)] [3, 5] [9, 11]).y = [5, 10] := by
  refine ⟨rfl, ?_, by norm_num [mkNodeTrace], by norm_num [mkNodeTrace]⟩
  norm_num [mkNodeTrace]

/-- Claim C10: every rendered edge pair (start, stop) taken from the
thresholded strict-upper-triangle mask satisfies start < stop (hence no
self-loops), the pair's absolute normalized partial correlation exceeds
0.02, the edge list has no duplicate pair (so each unordered pair
contributes at most one edge), and every width 15*value is strictly
positive. -/
theorem c10_edges (sqrtA : ℚ → ℚ) (P : ℕ → ℕ → ℚ) (n : ℕ) :
    (∀ p ∈ edgeList sqrtA P n, p.1 < p.2 ∧ 1/50 < |normPC sqrtA P p.1 p.2|) ∧
    (edgeList sqrtA P n).Nodup ∧
    (∀ w ∈ edgeWidths sqrtA P n, 0 < w) := by
  have key : ∀ p ∈ edgeList sqrtA P n, p.1 < p.2 ∧ 1/50 < |normPC sqrtA P p.1 p.2| := by
    intro p hp
    unfold edgeList at hp
    simp only [List.mem_flatMap, List.mem_map, List.mem_filter, List.mem_range] at hp
    obtain ⟨i, _, j, ⟨⟨_, hnz⟩, rfl⟩⟩ := hp
    unfold nonZero at hnz
    have hh := of_decide_eq_true hnz
    by_cases hij : i < j
    · rw [if_pos hij] at hh
      exact ⟨hij, hh⟩
    · rw [if_neg hij] at hh
      norm_num at hh
  refine ⟨key, ?_, ?_⟩
  · unfold edgeList
    refine List.nodup_flatMap.mpr ⟨?_, ?_⟩
    · intro i _
      exact ((List.nodup_range n).filter _).map (fun a b h => congrArg Prod.snd h)
    · refine List.Pairwise.imp ?_ (List.pairwise_lt_range n)
      intro a b hab
      intro x hxa hxb
      simp only [List.mem_map, List.mem_filter, List.mem_range] at hxa hxb
      obtain ⟨j, _, rfl⟩ := hxa
      obtain ⟨j', _, hx⟩ := hxb
      exact absurd (congrArg Prod.fst hx).symm (Nat.ne_of_lt hab)
  · intro w hw
    unfold edgeWidths edgeValues at hw
    simp only [List.mem_map] at hw
    obtain ⟨v, ⟨p, hp, rfl⟩, rfl⟩ := hw
    have h2 := (key p hp).2
    have h3 : (0 : ℚ) < |normPC sqrtA P p.1 p.2| := lt_trans (by norm_num) h2
    linarith

/-- A stand-in for the external `np.sqrt` at the concrete witness input
(where every diagonal entry is 1). -/
def idSqrt : ℚ → ℚ := fun q => q

/-- A concrete 2x2 precision matrix used to instantiate `c10_edges`. -/
def samplePrec : ℕ → ℕ → ℚ := fun i j => if i = j then 1 else 1/10

theorem c10_edges_witness :
    (∀ p ∈ edgeList idSqrt samplePrec 2, p.1 < p.2 ∧ 1/50 < |normPC idSqrt samplePrec p.1 p.2|) ∧
    (edgeList idSqrt samplePrec 2).Nodup ∧
    (∀ w ∈ edgeWidths idSqrt samplePrec 2, 0 < w) :=
  c10_edges idSqrt samplePrec 2
